import Mathlib

/-!
Verification of the Loc-Bench / SWE-agent conversion tools
(`tools/locbench_sweagent/parse_trajectories.py` and
`tools/locbench_sweagent/prepare_instances.py`).

The Python sources are shallowly embedded below: Python values appearing as
parsed JSON are modelled by `PyVal`, `json.loads` by a fuel-based
recursive-descent parser following CPython's `json` module grammar
(strict mode), the fenced-code-block regex by an explicit scanner, and the
two CLI `main` loops by pure functions over explicit inputs
(record lists, an abstract file-existence predicate).

Modelling notes (abstractions that do not affect any claim):
* character classes are restricted to their ASCII fragment: `str.strip()` and
  the regex class `\s` strip/match the ASCII whitespace characters
  (space, tab, newline, carriage return, vertical tab, form feed);
* JSON numbers with a fraction or exponent (and the constants `NaN`,
  `Infinity`, `-Infinity`) are kept as uninterpreted lexemes rather than
  IEEE floats, and every float value is treated as truthy;
* `\uXXXX` escapes are decoded as single code points (surrogate halves are
  not paired).
-/

namespace LocBench

/-- ASCII fragment of the whitespace class used by Python's `str.strip()`
and by the regex class `\s`. -/
def isPySpace (c : Char) : Bool :=
  c = ' ' || c = '\t' || c = '\n' || c = '\r' || c = '\x0b' || c = '\x0c'

/-- JSON inter-token whitespace, CPython's `WHITESPACE` regex `[ \t\n\r]*`. -/
def isJsonWs (c : Char) : Bool :=
  c = ' ' || c = '\t' || c = '\n' || c = '\r'

/-- Drop JSON whitespace from the front (CPython `_w(s, idx).end()`). -/
def skipWs (cs : List Char) : List Char := cs.dropWhile isJsonWs

/-- Remove leading and trailing Python whitespace: `str.strip()` on the
underlying character list. -/
def trim (l : List Char) : List Char :=
  (l.dropWhile isPySpace).rdropWhile isPySpace

/-- Python `str.strip()`. -/
def pyStrip (s : String) : String := ⟨trim s.data⟩

/-- Parsed JSON documents, i.e. the Python values `json.loads` can return.
`none` is Python `None` (JSON `null`); `float` keeps the numeric lexeme
uninterpreted; `dict` keeps the key/value pairs in parse order. -/
inductive PyVal where
  | none : PyVal
  | bool : Bool → PyVal
  | int : Int → PyVal
  | float : String → PyVal
  | str : String → PyVal
  | list : List PyVal → PyVal
  | dict : List (String × PyVal) → PyVal

/-- Python truthiness (`if not value`) for the values above.  Float lexemes
are treated as truthy (the denotation `0.0` is not modelled; no claim
depends on it). -/
def pyTruthy : PyVal → Bool
  | .none => false
  | .bool b => b
  | .int n => n ≠ 0
  | .float _ => true
  | .str s => s ≠ ""
  | .list xs => !xs.isEmpty
  | .dict kvs => !kvs.isEmpty

/-- `dict.get(key)` with default `None`; with duplicate keys the last
binding wins, matching insertion-order update of a Python dict. -/
def pyDictGet (kvs : List (String × PyVal)) (k : String) : PyVal :=
  match kvs.reverse.find? (fun kv => kv.1 = k) with
  | some kv => kv.2
  | Option.none => .none

/-- `opt.getD ""` is nonempty: truthiness of an optional string field
(`record.get(k)` is falsy exactly when the key is absent or maps to `""`,
for string-valued fields). -/
def optTruthy (o : Option String) : Bool := !((o.getD "") = "")

/-- Python `a or b` for an optional string `a` and string default `b`. -/
def pyOr (o : Option String) (d : String) : String :=
  match o with
  | some s => if s = "" then d else s
  | Option.none => d

/-- Value of a hexadecimal digit. -/
def hexVal (c : Char) : Option Nat :=
  if '0' ≤ c && c ≤ '9' then some (c.toNat - 48)
  else if 'a' ≤ c && c ≤ 'f' then some (c.toNat - 87)
  else if 'A' ≤ c && c ≤ 'F' then some (c.toNat - 55)
  else Option.none

/-- JSON string escapes (CPython `BACKSLASH` table). -/
def escChar : Char → Option Char
  | '"' => some '"'
  | '\\' => some '\\'
  | '/' => some '/'
  | 'b' => some '\x08'
  | 'f' => some '\x0c'
  | 'n' => some '\n'
  | 'r' => some '\r'
  | 't' => some '\t'
  | _ => Option.none

/-- CPython `scanstring` in strict mode: the input starts right after the
opening quote; the accumulator holds decoded characters in reverse.
Unescaped control characters below `0x20` and invalid escapes fail.
`\uXXXX` decodes to a single code point (invalid scalar values give `'\0'`;
surrogate pairs are not combined — no claim involves them). -/
def parseJString : List Char → List Char → Option (String × List Char)
  | [], _ => Option.none
  | '"' :: r, acc => some (⟨acc.reverse⟩, r)
  | '\\' :: 'u' :: h1 :: h2 :: h3 :: h4 :: r, acc =>
    match hexVal h1, hexVal h2, hexVal h3, hexVal h4 with
    | some a, some b, some c, some d =>
      parseJString r (Char.ofNat (((a * 16 + b) * 16 + c) * 16 + d) :: acc)
    | _, _, _, _ => Option.none
  | '\\' :: e :: r, acc =>
    match escChar e with
    | some c => parseJString r (c :: acc)
    | Option.none => Option.none
  | c :: r, acc => if c.toNat < 32 then Option.none else parseJString r (c :: acc)

/-- Digit characters to the natural number they denote. -/
def digitsToNat (ds : List Char) : Nat :=
  ds.foldl (fun acc c => acc * 10 + (c.toNat - 48)) 0

/-- CPython `NUMBER_RE`: `(-?(?:0|[1-9]\d+?))(\.\d+)?([eE][-+]?\d+)?` matched
at the current position.  The value is an `int` when there is no fraction and
no exponent, otherwise the whole lexeme kept as an uninterpreted float. -/
def parseNumber (cs : List Char) : Option (PyVal × List Char) :=
  let signed := match cs with
    | '-' :: t => (true, t)
    | _ => (false, cs)
  match signed.2 with
  | c :: t =>
    if c.isDigit then
      let intDigits := if c = '0' then [c] else c :: t.takeWhile Char.isDigit
      let r1 := if c = '0' then t else t.dropWhile Char.isDigit
      let fracRes : Option (List Char × List Char) :=
        match r1 with
        | '.' :: t2 =>
          let ds := t2.takeWhile Char.isDigit
          if ds.isEmpty then Option.none else some ('.' :: ds, t2.dropWhile Char.isDigit)
        | _ => Option.none
      let fracP := match fracRes with
        | some p => p
        | Option.none => ([], r1)
      let expRes : Option (List Char × List Char) :=
        match fracP.2 with
        | e :: t3 =>
          if e = 'e' || e = 'E' then
            let sgnP := match t3 with
              | '+' :: u => ([('+' : Char)], u)
              | '-' :: u => ([('-' : Char)], u)
              | _ => ([], t3)
            let ds := sgnP.2.takeWhile Char.isDigit
            if ds.isEmpty then Option.none
            else some (e :: (sgnP.1 ++ ds), sgnP.2.dropWhile Char.isDigit)
          else Option.none
        | _ => Option.none
      let expP := match expRes with
        | some p => p
        | Option.none => ([], fracP.2)
      if fracP.1.isEmpty && expP.1.isEmpty then
        let n : Int := Int.ofNat (digitsToNat intDigits)
        some (.int (if signed.1 then -n else n), expP.2)
      else
        some (.float ⟨(if signed.1 then ['-'] else []) ++ intDigits ++ fracP.1 ++ expP.1⟩,
          expP.2)
    else Option.none
  | [] => Option.none

/-- The non-recursive alternatives of CPython `scan_once`: `null`, `true`,
`false`, a number, or one of the constants `NaN` / `Infinity` / `-Infinity`
(kept as uninterpreted float lexemes). -/
def parseLit (cs : List Char) : Option (PyVal × List Char) :=
  match cs with
  | 'n' :: 'u' :: 'l' :: 'l' :: r => some (.none, r)
  | 't' :: 'r' :: 'u' :: 'e' :: r => some (.bool true, r)
  | 'f' :: 'a' :: 'l' :: 's' :: 'e' :: r => some (.bool false, r)
  | _ =>
    match parseNumber cs with
    | some p => some p
    | Option.none =>
      match cs with
      | 'N' :: 'a' :: 'N' :: r => some (.float "nan", r)
      | 'I' :: 'n' :: 'f' :: 'i' :: 'n' :: 'i' :: 't' :: 'y' :: r => some (.float "inf", r)
      | '-' :: 'I' :: 'n' :: 'f' :: 'i' :: 'n' :: 'i' :: 't' :: 'y' :: r =>
        some (.float "-inf", r)
      | _ => Option.none

mutual

/-- CPython `scan_once`: parse one JSON value at a non-whitespace position.
The fuel only bounds recursion depth; `pyJsonLoads` supplies enough for any
input. -/
def parseVal : Nat → List Char → Option (PyVal × List Char)
  | 0, _ => Option.none
  | _ + 1, [] => Option.none
  | fuel + 1, c :: t =>
    if c = '"' then
      (parseJString t []).map (fun p => (PyVal.str p.1, p.2))
    else if c = '{' then parseObj fuel t
    else if c = '[' then parseArr fuel t
    else parseLit (c :: t)

/-- CPython `JSONObject`, entered just after the `{`. -/
def parseObj : Nat → List Char → Option (PyVal × List Char)
  | 0, _ => Option.none
  | fuel + 1, cs =>
    match skipWs cs with
    | '}' :: r => some (.dict [], r)
    | '"' :: r => (parseMembers fuel r).map (fun p => (PyVal.dict p.1, p.2))
    | _ => Option.none

/-- CPython `JSONArray`, entered just after the `[`. -/
def parseArr : Nat → List Char → Option (PyVal × List Char)
  | 0, _ => Option.none
  | fuel + 1, cs =>
    match skipWs cs with
    | ']' :: r => some (.list [], r)
    | cs1 => (parseItems fuel cs1).map (fun p => (PyVal.list p.1, p.2))

/-- Members of an object, entered just after the opening quote of a key. -/
def parseMembers : Nat → List Char → Option (List (String × PyVal) × List Char)
  | 0, _ => Option.none
  | fuel + 1, cs =>
    match parseJString cs [] with
    | Option.none => Option.none
    | some (k, r1) =>
      match skipWs r1 with
      | ':' :: r2 =>
        match parseVal fuel (skipWs r2) with
        | Option.none => Option.none
        | some (v, r3) =>
          match skipWs r3 with
          | '}' :: r4 => some ([(k, v)], r4)
          | ',' :: r4 =>
            match skipWs r4 with
            | '"' :: r5 => (parseMembers fuel r5).map (fun p => ((k, v) :: p.1, p.2))
            | _ => Option.none
          | _ => Option.none
      | _ => Option.none

/-- Items of an array, entered at the first character of a value. -/
def parseItems : Nat → List Char → Option (List PyVal × List Char)
  | 0, _ => Option.none
  | fuel + 1, cs =>
    match parseVal fuel cs with
    | Option.none => Option.none
    | some (v, r1) =>
      match skipWs r1 with
      | ']' :: r2 => some ([v], r2)
      | ',' :: r2 => (parseItems fuel (skipWs r2)).map (fun p => (v :: p.1, p.2))
      | _ => Option.none

end

/-- CPython `json.loads`: skip leading whitespace, parse one value, then
require only trailing whitespace.  Fuel `3 * n + 8` exceeds the recursion
depth the parser can reach on an input of length `n` (at most three nested
calls consume fuel per input character). -/
def pyJsonLoads (cs : List Char) : Option PyVal :=
  let cs1 := skipWs cs
  match parseVal (3 * cs1.length + 8) cs1 with
  | some (v, rest) => if (skipWs rest).isEmpty then some v else Option.none
  | Option.none => Option.none

/-- `_try_load_json`: `json.loads` wrapped so that parse failures become
`none`, and any result that is not a dict is rejected. -/
def try_load_json (cs : List Char) : Option (List (String × PyVal)) :=
  match pyJsonLoads cs with
  | some (.dict kvs) => some kvs
  | _ => Option.none

/-- Does the list start with the fence ` ``` `? -/
def startsFence (cs : List Char) : Bool :=
  cs.take 3 = ['`', '`', '`']

/-- Split at the first occurrence of ` ``` `: returns the suffix right after
that opening fence, or `none` when no fence occurs. -/
def findOpenSplit : List Char → Option (List Char)
  | [] => Option.none
  | c :: t => if startsFence (c :: t) then some (t.drop 2) else findOpenSplit t

/-- Split at the first occurrence of ` ``` `: returns the characters before
it and the suffix after it, or `none` when no fence occurs. -/
def findCloseSplit : List Char → Option (List Char × List Char)
  | [] => Option.none
  | c :: t =>
    if startsFence (c :: t) then some ([], t.drop 2)
    else (findCloseSplit t).map (fun p => (c :: p.1, p.2))

/-- The optional `(?:json)?` right after the opening fence, case-insensitive:
returns the consumed characters and the rest. -/
def spanJson : List Char → List Char × List Char
  | a :: b :: c :: d :: t =>
    if a.toLower = 'j' && b.toLower = 's' && c.toLower = 'o' && d.toLower = 'n' then
      ([a, b, c, d], t)
    else ([], a :: b :: c :: d :: t)
  | cs => ([], cs)

/-- One match of `JSON_CODE_BLOCK_RE = re.compile(r"```(?:json)?\s*(.*?)```",
re.IGNORECASE | re.DOTALL)`: `full` is the whole matched substring (group 0)
and `inner` the lazy group `(.*?)` (group 1). -/
structure FenceMatch where
  full : List Char
  inner : List Char

/-- All matches of `JSON_CODE_BLOCK_RE.finditer(text)`, leftmost first and
non-overlapping.  The optional `json` tag and the greedy `\s*` contain no
backtick, so a match starting at an opening fence succeeds exactly when
another fence occurs later, and the lazy group ends at the earliest
closing fence. -/
def scanFences : Nat → List Char → List FenceMatch
  | 0, _ => []
  | fuel + 1, cs =>
    match findOpenSplit cs with
    | Option.none => []
    | some afterOpen =>
      let jp := spanJson afterOpen
      let w := jp.2.takeWhile isPySpace
      let r2 := jp.2.dropWhile isPySpace
      match findCloseSplit r2 with
      | Option.none => []
      | some (inner, rest) =>
        { full := '`' :: '`' :: '`' :: (jp.1 ++ w ++ inner ++ ['`', '`', '`']),
          inner := inner } :: scanFences fuel rest

/-- Index (from the start of the suffix) of the character where the running
brace depth first returns to zero, scanning `+1` at `{` and `-1` at `}`. -/
def braceEnd : List Char → Nat → Nat → Option Nat
  | [], _, _ => Option.none
  | c :: t, depth, i =>
    if c = '{' then braceEnd t (depth + 1) (i + 1)
    else if c = '}' then
      if depth = 1 then some i else braceEnd t (depth - 1) (i + 1)
    else braceEnd t depth (i + 1)

/-- `_iter_json_substrings`: for each `{` in order of increasing index, the
substring from it to the first position where the brace depth returns to
zero (skipped when the depth never returns to zero). -/
def iter_json_substrings : List Char → List (List Char)
  | [] => []
  | c :: t =>
    if c = '{' then
      match braceEnd (c :: t) 0 0 with
      | some j => (c :: t).take (j + 1) :: iter_json_substrings t
      | Option.none => iter_json_substrings t
    else iter_json_substrings t

/-- First element of the list on which `f` succeeds, paired with that
element's image (the shape of both `for` loops in `extract_json_payload`). -/
def firstParse (cands : List (List Char)) :
    Option (List (String × PyVal) × List Char) :=
  cands.findSome? (fun c => (try_load_json c).map (fun d => (d, c)))

/-- The fenced-block candidates of `extract_json_payload`: the stripped
inner text of each matched region, empty ones dropped
(`candidate = match.group(1).strip(); if candidate: candidates.append`). -/
def fenceCands (cs : List Char) : List (List Char) :=
  (scanFences (cs.length + 1) cs).filterMap (fun f =>
    if (trim f.inner).isEmpty then Option.none else some (trim f.inner))

/-- The tier-1/2 candidate list of `extract_json_payload`: the fenced-block
candidates, or the stripped whole text when there are none
(`if not candidates: candidates.append(text.strip())`). -/
def extractCands (cs : List Char) : List (List Char) :=
  if (fenceCands cs).isEmpty then [trim cs] else fenceCands cs

/-- `extract_json_payload(text)`: the three-tier extractor.  Candidates are
the nonempty stripped inner texts of the fenced blocks, or the stripped whole
text when there are none; the first candidate that loads as a dict wins;
otherwise the brace-balanced substrings are tried in order. -/
def extract_json_payload (text : String) :
    Option (List (String × PyVal)) × Option String :=
  if text = "" then (Option.none, Option.none)
  else
    match firstParse (extractCands text.data) with
    | some (d, c) => (some d, some ⟨c⟩)
    | Option.none =>
      match firstParse (iter_json_substrings text.data) with
      | some (d, c) => (some d, some ⟨c⟩)
      | Option.none => (Option.none, Option.none)

/-- `isinstance(item, str)` together with the string itself. -/
def asStr : PyVal → Option String
  | .str s => some s
  | _ => Option.none

/-- The loop body of `normalize_list`: keep the strings, strip each, drop
empties and anything already in `seen`, preserving order. -/
def normAux : List PyVal → List String → List String
  | [], _ => []
  | item :: rest, seen =>
    match asStr item with
    | some s =>
      let cleaned := pyStrip s
      if cleaned = "" ∨ cleaned ∈ seen then normAux rest seen
      else cleaned :: normAux rest (cleaned :: seen)
    | Option.none => normAux rest seen

/-- `normalize_list(value)`: `[]` for falsy input, otherwise the cleaned and
first-occurrence-deduplicated strings of the value (a non-list value is
treated as the singleton list around it). -/
def normalize_list (value : PyVal) : List String :=
  if pyTruthy value then
    normAux (match value with | .list xs => xs | v => [v]) []
  else []

/-- Characters before the first occurrence of `c` (the whole list when `c`
does not occur): `s.split(c, 1)[0]`, which also equals `s.split(c)[0]`. -/
def takeUntil (c : Char) : List Char → List Char
  | [] => []
  | x :: t => if x = c then [] else x :: takeUntil c t

/-- Characters after the first occurrence of `c`:
`s.split(c, 1)[1]` (meaningful only when `c` occurs). -/
def dropPast (c : Char) : List Char → List Char
  | [] => []
  | x :: t => if x = c then t else dropPast c t

/-- The loop body of `entities_to_modules`. -/
def e2mAux : List String → List String → List String
  | [], _ => []
  | e :: rest, seen =>
    if ':' ∈ e.data then
      let file_path : String := ⟨takeUntil ':' e.data⟩
      let module_name : String := ⟨takeUntil '.' (dropPast ':' e.data)⟩
      let module_id := if module_name ≠ "" then file_path ++ ":" ++ module_name else file_path
      if module_id ∈ seen then e2mAux rest seen
      else module_id :: e2mAux rest (module_id :: seen)
    else e2mAux rest seen

/-- `entities_to_modules(found_entities)` from `parse_trajectories.py`. -/
def entities_to_modules (found_entities : List String) : List String :=
  e2mAux found_entities []

/-- One step of a trajectory; only its optional `response` text matters to
the converter. -/
structure Step where
  response : Option String

/-- `step.get("response") or ""`: both a missing and an empty response give
`""`. -/
def stepResp (s : Step) : String := (s.response).getD ""

/-- The `for step in reversed(trajectory)` loop of `main` in
`parse_trajectories.py`, applied to an already-reversed list: the first
step whose response text yields a payload, together with that response. -/
def findRecent : List Step → Option (List (String × PyVal) × String)
  | [] => Option.none
  | s :: rest =>
    let r := stepResp s
    match (extract_json_payload r).1 with
    | some p => some (p, r)
    | Option.none => findRecent rest

/-- The fallback raw text when no step yielded a payload:
`trajectory[-1].get("response") if trajectory else ""`. -/
def fallbackRaw (steps : List Step) : Option String :=
  match steps.getLast? with
  | some s => s.response
  | Option.none => some ""

/-- The per-trajectory fields of a Localization Output Record (the
`instance_id` and `meta_data` fields are copied from elsewhere and carry no
invariant claimed here). -/
structure LocOutput where
  found_files : List String
  found_modules : List String
  found_entities : List String
  raw_output_loc : List String

/-- Field derivation of `main` in `parse_trajectories.py` from an extracted
payload and the recorded raw response. -/
def buildOutput (payload : List (String × PyVal)) (raw : Option String) : LocOutput :=
  let found_files0 := normalize_list (pyDictGet payload "found_files")
  let found_entities := normalize_list (pyDictGet payload "found_entities")
  let found_files :=
    if found_files0 = [] ∧ found_entities ≠ [] then
      normalize_list (.list (found_entities.filterMap (fun item =>
        if ':' ∈ item.data then some (PyVal.str ⟨takeUntil ':' item.data⟩)
        else Option.none)))
    else found_files0
  let found_modules0 := normalize_list (pyDictGet payload "found_modules")
  let found_modules :=
    if found_modules0 = [] ∧ found_entities ≠ [] then entities_to_modules found_entities
    else found_modules0
  { found_files := found_files
    found_modules := found_modules
    found_entities := found_entities
    raw_output_loc := match raw with
      | some s => if s = "" then [] else [s]
      | Option.none => [] }

/-- The whole per-trajectory conversion: backward scan, fallback to the last
step's raw response and an empty payload, then field derivation. -/
def convert (steps : List Step) : LocOutput :=
  match findRecent steps.reverse with
  | some (p, r) => buildOutput p (some r)
  | Option.none => buildOutput [] (fallbackRaw steps)

/-- A benchmark dataset record, restricted to the fields
`prepare_instances.py` reads; a missing field is `none`. -/
structure BenchRecord where
  instance_id : Option String
  repo : Option String
  base_commit : Option String
  problem_statement : Option String
deriving DecidableEq

/-- The CLI configuration of `prepare_instances.py`; the regex filter is
abstracted to a predicate on instance ids (`regex.search`). -/
structure BuildArgs where
  imageName : String
  repoRoot : String
  filter : Option (String → Bool)
  limit : Option Int
  skipMissing : Bool

/-- `repo_slug.replace("/", "_")`. -/
def replaceSlash (s : String) : String :=
  ⟨s.data.map (fun c => if c = '/' then '_' else c)⟩

/-- `build_repo_path(repo_root, repo_slug)`; the `Path` join is rendered
with `/`. -/
def build_repo_path (repoRoot slug : String) : String :=
  repoRoot ++ "/" ++ replaceSlash slug

/-- One emitted line of `instances.jsonl` (the `extra_fields` mapping is
flattened into the three `extra_` fields). -/
structure TaskInstance where
  image_name : String
  problem_statement : String
  instance_id : String
  repo_name : String
  base_commit : String
  extra_repo_slug : String
  extra_repo_path : String
  extra_base_commit : String
deriving DecidableEq

/-- `regex and not regex.search(instance_id)` as a pass test: no configured
filter passes everything. -/
def passesFilter (args : BuildArgs) (iid : String) : Bool :=
  match args.filter with
  | some f => f iid
  | Option.none => true

/-- `args.limit and count >= args.limit`: `None` and `0` are falsy. -/
def limitReached (args : BuildArgs) (count : Int) : Bool :=
  match args.limit with
  | some n => !(n = 0) && decide (n ≤ count)
  | Option.none => false

/-- The instance dict written for one surviving record. -/
def mkInstance (args : BuildArgs) (r : BenchRecord) : TaskInstance :=
  let slug := (r.repo).getD ""
  let path := build_repo_path args.repoRoot slug
  let bc := pyOr r.base_commit "HEAD"
  { image_name := args.imageName
    problem_statement := pyOr r.problem_statement ""
    instance_id := (r.instance_id).getD ""
    repo_name := path
    base_commit := bc
    extra_repo_slug := slug
    extra_repo_path := path
    extra_base_commit := bc }

/-- Loop state of `main` in `prepare_instances.py`: lines written so far,
the emission counter, and the missing-repo slugs in scan order. -/
structure BState where
  out : List TaskInstance
  count : Int
  missing : List String
deriving DecidableEq

/-- One iteration of the record loop; the boolean reports the `break` taken
after an emission once the limit is reached.  `pathExists` abstracts
`Path.exists` on the resolved repository path. -/
def stepRecord (args : BuildArgs) (pathExists : String → Bool) (s : BState)
    (r : BenchRecord) : BState × Bool :=
  if !optTruthy r.instance_id then (s, false)
  else if !passesFilter args ((r.instance_id).getD "") then (s, false)
  else if !optTruthy r.repo then (s, false)
  else
    let slug := (r.repo).getD ""
    let path := build_repo_path args.repoRoot slug
    if !pathExists path then
      if args.skipMissing then (s, false)
      else ({ s with missing := s.missing ++ [slug] }, false)
    else
      let s1 := { s with out := s.out ++ [mkInstance args r], count := s.count + 1 }
      (s1, limitReached args s1.count)

/-- The record loop of `main`, stopping early at a `break`. -/
def runLoop (args : BuildArgs) (pathExists : String → Bool) :
    BState → List BenchRecord → BState
  | s, [] => s
  | s, r :: rs =>
    let sb := stepRecord args pathExists s r
    if sb.2 then sb.1 else runLoop args pathExists sb.1 rs

/-- Observable outcome of one `prepare_instances.py` run: the lines written
to the output file, the exit code, and the missing slugs named in the
diagnostic (first ten). -/
structure RunResult where
  output : List TaskInstance
  exitCode : Int
  reportedMissing : List String
deriving DecidableEq

/-- The epilogue of `main` in `prepare_instances.py` (`if missing_repos:`):
exit `3` naming the first ten missing slugs when any repository was missing
and skip-missing is not configured (with skip-missing the missing list stays
empty and the branch only warns), else exit `0`. -/
def finishRun (args : BuildArgs) (s : BState) : RunResult :=
  if s.missing = [] then { output := s.out, exitCode := 0, reportedMissing := [] }
  else if args.skipMissing then
    { output := s.out, exitCode := 0, reportedMissing := s.missing.take 10 }
  else
    { output := s.out, exitCode := 3, reportedMissing := s.missing.take 10 }

/-- The record-processing part of `main` in `prepare_instances.py`, after
the input paths were found to exist: run the loop, then the epilogue. -/
def mainRun (args : BuildArgs) (pathExists : String → Bool)
    (records : List BenchRecord) : RunResult :=
  finishRun args (runLoop args pathExists ⟨[], 0, []⟩ records)

/-!  Specification-side definitions.  The definitions below restate parts of
the claims in the spec's own words, independently of the code path they are
compared against. -/

/-- Deduplication keeping the first occurrence, preserving input order
(the spec's "ordered set"). -/
def dedupFirstAux : List String → List String → List String
  | [], _ => []
  | x :: t, seen =>
    if x ∈ seen then dedupFirstAux t seen
    else x :: dedupFirstAux t (x :: seen)

/-- `dedupFirst l` is `l` with every later duplicate removed. -/
def dedupFirst (l : List String) : List String := dedupFirstAux l []

/-- The module identifier of one entity, following the spec: skip entities
without `:`; split at the first `:` into `filePath` and `qualifiedName`;
`moduleName` is the first dot-separated segment of `qualifiedName`; the
identifier is `filePath:moduleName`, or just `filePath` when `moduleName`
is empty. -/
def specModuleId (e : String) : Option String :=
  if ':' ∈ e.data then
    let filePath : String := ⟨takeUntil ':' e.data⟩
    let moduleName : String := ⟨takeUntil '.' (dropPast ':' e.data)⟩
    some (if moduleName ≠ "" then filePath ++ ":" ++ moduleName else filePath)
  else Option.none

/-- The cleaned form one element contributes to `normalize_list`'s output:
its stripped text when it is a string that is nonempty after stripping. -/
def cleanedOf (item : PyVal) : Option String :=
  (asStr item).bind (fun s =>
    if pyStrip s = "" then Option.none else some (pyStrip s))

/-- The cleaned source values of `normalize_list`'s input, in input order
and with duplicates retained: the stripped string elements that are
nonempty after stripping. -/
def cleanedSource (v : PyVal) : List String :=
  let items : List PyVal := match v with | .list xs => xs | w => [w]
  items.filterMap cleanedOf

/-- The first fenced region whose stripped inner text loads as a JSON
object, with that stripped inner text. -/
def firstGoodRegion (text : String) :
    Option (List (String × PyVal) × List Char) :=
  (scanFences (text.data.length + 1) text.data).findSome? (fun f =>
    (try_load_json (trim f.inner)).map (fun d => (d, trim f.inner)))

/-- The slugs of the records that reach the existence check and whose
resolved repository path is missing, in scan order. -/
def missingList (args : BuildArgs) (pathExists : String → Bool)
    (records : List BenchRecord) : List String :=
  records.filterMap (fun r =>
    if optTruthy r.instance_id && passesFilter args ((r.instance_id).getD "")
        && optTruthy r.repo
        && !pathExists (build_repo_path args.repoRoot ((r.repo).getD "")) then
      some ((r.repo).getD "")
    else Option.none)

/-- A record survives when it has a truthy `instance_id` that passes the
filter, a truthy `repo`, and its resolved repository path exists. -/
def survives (args : BuildArgs) (pathExists : String → Bool)
    (r : BenchRecord) : Bool :=
  optTruthy r.instance_id && passesFilter args ((r.instance_id).getD "")
    && optTruthy r.repo
    && pathExists (build_repo_path args.repoRoot ((r.repo).getD ""))

/-- The task instances of the surviving records, cut off by the emission
limit — defined without any reference to missing-repo bookkeeping or the
exit code. -/
def survivorsAux (args : BuildArgs) (pathExists : String → Bool) :
    Int → List BenchRecord → List TaskInstance
  | _, [] => []
  | count, r :: rs =>
    if survives args pathExists r then
      mkInstance args r ::
        (if limitReached args (count + 1) then []
         else survivorsAux args pathExists (count + 1) rs)
    else survivorsAux args pathExists count rs

/-- All task instances a run should write, per the spec. -/
def survivorsLimited (args : BuildArgs) (pathExists : String → Bool)
    (records : List BenchRecord) : List TaskInstance :=
  survivorsAux args pathExists 0 records

/-!  Lemmas. -/

lemma head_dropWhile_false {α : Type} {p : α → Bool} :
    ∀ {l : List α} {x : α} {r : List α}, l.dropWhile p = x :: r → p x = false
  | [], x, r, h => by simp at h
  | c :: t, x, r, h => by
    rw [List.dropWhile_cons] at h
    split at h
    · exact head_dropWhile_false h
    · rename_i hc
      obtain ⟨rfl, _⟩ := List.cons.injEq .. ▸ h
      exact Bool.of_not_eq_true hc

lemma dropWhile_trim (l : List Char) : (trim l).dropWhile isPySpace = trim l := by
  unfold trim
  rcases List.rdropWhile_prefix isPySpace (l.dropWhile isPySpace) with ⟨t, ht⟩
  cases h : (l.dropWhile isPySpace).rdropWhile isPySpace with
  | nil => simp
  | cons x xs =>
    have h0 : l.dropWhile isPySpace = x :: (xs ++ t) := by
      rw [← ht, h]; simp
    have hx : isPySpace x = false := head_dropWhile_false h0
    simp [List.dropWhile_cons, hx]

lemma trim_trim (l : List Char) : trim (trim l) = trim l := by
  show ((trim l).dropWhile isPySpace).rdropWhile isPySpace = trim l
  rw [dropWhile_trim]
  show ((l.dropWhile isPySpace).rdropWhile isPySpace).rdropWhile isPySpace = trim l
  rw [List.rdropWhile_idempotent]
  rfl

lemma pyStrip_idem (s : String) : pyStrip (pyStrip s) = pyStrip s := by
  show (⟨trim (trim s.data)⟩ : String) = ⟨trim s.data⟩
  rw [trim_trim]

lemma normAux_mem {items : List PyVal} {seen : List String} {c : String}
    (h : c ∈ normAux items seen) :
    pyStrip c = c ∧ c ≠ "" ∧ c ∉ seen := by
  induction items generalizing seen with
  | nil => simp [normAux] at h
  | cons item rest ih =>
    cases ha : asStr item with
    | none =>
      rw [normAux, ha] at h
      exact ih h
    | some s =>
      rw [normAux, ha] at h
      simp only at h
      split at h
      · exact ih h
      · rename_i hguard
        rcases List.mem_cons.mp h with hc | hc
        · subst hc
          push_neg at hguard
          exact ⟨pyStrip_idem s, hguard.1, hguard.2⟩
        · have := ih hc
          refine ⟨this.1, this.2.1, fun hmem => this.2.2 (List.mem_cons_of_mem _ hmem)⟩

lemma normAux_nodup (items : List PyVal) (seen : List String) :
    (normAux items seen).Nodup := by
  induction items generalizing seen with
  | nil => simp [normAux]
  | cons item rest ih =>
    cases ha : asStr item with
    | none => rw [normAux, ha]; exact ih seen
    | some s =>
      rw [normAux, ha]
      simp only
      split
      · exact ih seen
      · refine List.Nodup.cons ?_ (ih _)
        intro hmem
        exact (normAux_mem hmem).2.2 (List.mem_cons_self _ _)

lemma normAux_sublist (items : List PyVal) (seen : List String) :
    List.Sublist (normAux items seen) (items.filterMap cleanedOf) := by
  induction items generalizing seen with
  | nil => simp [normAux]
  | cons item rest ih =>
    cases ha : asStr item with
    | none =>
      rw [normAux, ha, List.filterMap_cons]
      have hco : cleanedOf item = Option.none := by simp [cleanedOf, ha]
      rw [hco]
      exact ih seen
    | some s =>
      rw [normAux, ha, List.filterMap_cons]
      have hco : cleanedOf item =
          (if pyStrip s = "" then Option.none else some (pyStrip s)) := by
        simp [cleanedOf, ha]
      rw [hco]
      simp only
      by_cases hs : pyStrip s = ""
      · rw [if_pos hs, if_pos (Or.inl hs)]
        exact ih seen
      · rw [if_neg hs]
        by_cases hsn : pyStrip s ∈ seen
        · rw [if_pos (Or.inr hsn)]
          exact List.Sublist.cons _ (ih seen)
        · rw [if_neg (by push_neg; exact ⟨hs, hsn⟩)]
          exact List.Sublist.cons₂ _ (ih _)

lemma normAux_of_clean : ∀ (l : List String) (seen : List String),
    l.Nodup → (∀ c ∈ l, pyStrip c = c ∧ c ≠ "" ∧ c ∉ seen) →
    normAux (l.map PyVal.str) seen = l
  | [], _, _, _ => rfl
  | x :: t, seen, hnd, hcl => by
    obtain ⟨hx1, hx2, hx3⟩ := hcl x (List.mem_cons_self _ _)
    rw [List.map_cons, normAux]
    simp only [asStr, hx1]
    rw [if_neg (by push_neg; exact ⟨hx2, hx3⟩)]
    have hnd' := List.nodup_cons.mp hnd
    congr 1
    refine normAux_of_clean t (x :: seen) hnd'.2 ?_
    intro c hc
    obtain ⟨h1, h2, h3⟩ := hcl c (List.mem_cons_of_mem _ hc)
    refine ⟨h1, h2, fun hmem => ?_⟩
    rcases List.mem_cons.mp hmem with hcx | hcs
    · exact hnd'.1 (hcx ▸ hc)
    · exact h3 hcs

lemma normalize_list_mem {v : PyVal} {c : String} (h : c ∈ normalize_list v) :
    pyStrip c = c ∧ c ≠ "" := by
  unfold normalize_list at h
  split at h
  · exact ⟨(normAux_mem h).1, (normAux_mem h).2.1⟩
  · simp at h

lemma normalize_list_nodup (v : PyVal) : (normalize_list v).Nodup := by
  unfold normalize_list
  split
  · exact normAux_nodup _ _
  · simp

lemma normalize_list_sublist (v : PyVal) :
    List.Sublist (normalize_list v) (cleanedSource v) := by
  unfold normalize_list cleanedSource
  split
  · exact normAux_sublist _ _
  · simp

lemma dedupFirstAux_mem : ∀ {l seen : List String} {c : String},
    c ∈ dedupFirstAux l seen → c ∉ seen
  | [], _, _, h => by simp [dedupFirstAux] at h
  | x :: t, seen, c, h => by
    rw [dedupFirstAux] at h
    split at h
    · exact dedupFirstAux_mem h
    · rcases List.mem_cons.mp h with hc | hc
      · rename_i hx
        exact hc ▸ hx
      · exact fun hmem => dedupFirstAux_mem hc (List.mem_cons_of_mem _ hmem)

lemma dedupFirstAux_nodup : ∀ (l seen : List String),
    (dedupFirstAux l seen).Nodup
  | [], _ => by simp [dedupFirstAux]
  | x :: t, seen => by
    rw [dedupFirstAux]
    split
    · exact dedupFirstAux_nodup t seen
    · exact List.Nodup.cons
        (fun hmem => dedupFirstAux_mem hmem (List.mem_cons_self _ _))
        (dedupFirstAux_nodup t (x :: seen))

lemma dedupFirstAux_sublist : ∀ (l seen : List String),
    List.Sublist (dedupFirstAux l seen) l
  | [], _ => by simp [dedupFirstAux]
  | x :: t, seen => by
    rw [dedupFirstAux]
    split
    · exact List.Sublist.cons _ (dedupFirstAux_sublist t seen)
    · exact List.Sublist.cons₂ _ (dedupFirstAux_sublist t (x :: seen))

lemma e2mAux_eq_dedup : ∀ (l seen : List String),
    e2mAux l seen = dedupFirstAux (l.filterMap specModuleId) seen
  | [], _ => rfl
  | e :: rest, seen => by
    by_cases hc : ':' ∈ e.data
    · simp only [e2mAux, List.filterMap_cons, specModuleId, if_pos hc]
      rw [dedupFirstAux]
      split
      · split
        · exact e2mAux_eq_dedup rest _
        · exact congrArg _ (e2mAux_eq_dedup rest _)
      · split
        · exact e2mAux_eq_dedup rest _
        · exact congrArg _ (e2mAux_eq_dedup rest _)
    · simp only [e2mAux, List.filterMap_cons, specModuleId, if_neg hc]
      exact e2mAux_eq_dedup rest seen

lemma entities_to_modules_eq (l : List String) :
    entities_to_modules l = dedupFirst (l.filterMap specModuleId) :=
  e2mAux_eq_dedup l []

lemma entities_to_modules_nodup (l : List String) :
    (entities_to_modules l).Nodup := by
  rw [entities_to_modules_eq]
  exact dedupFirstAux_nodup _ _

lemma entities_to_modules_sublist (l : List String) :
    List.Sublist (entities_to_modules l) (l.filterMap specModuleId) := by
  rw [entities_to_modules_eq]
  exact dedupFirstAux_sublist _ _

/-- **C6.** `normalize_list` is idempotent: feeding its own result (as the
Python list of strings it is) back into `normalize_list` returns the same
ordered list. -/
theorem claim_C6_normalize_list_idempotent (v : PyVal) :
    normalize_list (PyVal.list ((normalize_list v).map PyVal.str)) = normalize_list v := by
  cases hl : normalize_list v with
  | nil => rfl
  | cons x t =>
    have hnd : (x :: t).Nodup := hl ▸ normalize_list_nodup v
    have hmem : ∀ c ∈ x :: t, pyStrip c = c ∧ c ≠ "" := by
      intro c hc
      exact normalize_list_mem (v := v) (hl ▸ hc)
    have htr : pyTruthy (PyVal.list ((x :: t).map PyVal.str)) = true := by
      simp [pyTruthy]
    rw [normalize_list, if_pos htr]
    show normAux ((x :: t).map PyVal.str) [] = x :: t
    exact normAux_of_clean _ [] hnd
      (fun c hc => ⟨(hmem c hc).1, (hmem c hc).2, by simp⟩)

/-- **C5.** `entities_to_modules` skips entities without `:`, splits the rest
at the first `:` into file path and qualified name, takes the first
dot-segment of the qualified name as module name, forms `filePath:moduleName`
(or just `filePath` when the module name is empty), and deduplicates keeping
the first occurrence in input order; on the spec's example it yields
`["a/b.py:Foo", "c/d.py:Qux"]`. -/
theorem claim_C5_entities_to_modules :
    (∀ l : List String, entities_to_modules l = dedupFirst (l.filterMap specModuleId)) ∧
    entities_to_modules ["a/b.py:Foo.bar", "a/b.py:Foo.baz", "c/d.py:Qux"] =
      ["a/b.py:Foo", "c/d.py:Qux"] := by
  refine ⟨fun l => entities_to_modules_eq l, ?_⟩
  rfl

lemma buildOutput_found_entities (payload : List (String × PyVal)) (raw : Option String) :
    (buildOutput payload raw).found_entities =
      normalize_list (pyDictGet payload "found_entities") := rfl

lemma buildOutput_found_files (payload : List (String × PyVal)) (raw : Option String) :
    (buildOutput payload raw).found_files =
      (if normalize_list (pyDictGet payload "found_files") = [] ∧
          normalize_list (pyDictGet payload "found_entities") ≠ [] then
        normalize_list (.list ((normalize_list (pyDictGet payload "found_entities")).filterMap
          (fun item =>
            if ':' ∈ item.data then some (PyVal.str ⟨takeUntil ':' item.data⟩)
            else Option.none)))
      else normalize_list (pyDictGet payload "found_files")) := rfl

lemma buildOutput_found_modules (payload : List (String × PyVal)) (raw : Option String) :
    (buildOutput payload raw).found_modules =
      (if normalize_list (pyDictGet payload "found_modules") = [] ∧
          normalize_list (pyDictGet payload "found_entities") ≠ [] then
        entities_to_modules (normalize_list (pyDictGet payload "found_entities"))
      else normalize_list (pyDictGet payload "found_modules")) := rfl

lemma buildOutput_raw (payload : List (String × PyVal)) (raw : Option String) :
    (buildOutput payload raw).raw_output_loc =
      (match raw with
        | some s => if s = "" then [] else [s]
        | Option.none => []) := rfl

/-- **C8.** Every Localization Output Record built by the converter has
`found_files`, `found_modules` and `found_entities` free of duplicates, and
each is a subsequence of its cleaned source values, so first-seen order is
preserved (the source of `found_files`/`found_modules` depends on the
derivation branch taken, hence the disjunctions). -/
theorem claim_C8_output_invariants (payload : List (String × PyVal)) (raw : Option String) :
    ((buildOutput payload raw).found_files.Nodup ∧
      (buildOutput payload raw).found_modules.Nodup ∧
      (buildOutput payload raw).found_entities.Nodup) ∧
    List.Sublist (buildOutput payload raw).found_entities
      (cleanedSource (pyDictGet payload "found_entities")) ∧
    (List.Sublist (buildOutput payload raw).found_files
        (cleanedSource (pyDictGet payload "found_files")) ∨
      List.Sublist (buildOutput payload raw).found_files
        (cleanedSource (PyVal.list ((buildOutput payload raw).found_entities.filterMap
          (fun item =>
            if ':' ∈ item.data then some (PyVal.str ⟨takeUntil ':' item.data⟩)
            else Option.none))))) ∧
    (List.Sublist (buildOutput payload raw).found_modules
        (cleanedSource (pyDictGet payload "found_modules")) ∨
      List.Sublist (buildOutput payload raw).found_modules
        ((buildOutput payload raw).found_entities.filterMap specModuleId)) := by
  rw [buildOutput_found_entities, buildOutput_found_files, buildOutput_found_modules]
  refine ⟨⟨?_, ?_, normalize_list_nodup _⟩, normalize_list_sublist _, ?_, ?_⟩
  · split
    · exact normalize_list_nodup _
    · exact normalize_list_nodup _
  · split
    · exact entities_to_modules_nodup _
    · exact normalize_list_nodup _
  · split
    · exact Or.inr (normalize_list_sublist _)
    · exact Or.inl (normalize_list_sublist _)
  · split
    · exact Or.inr (entities_to_modules_sublist _)
    · exact Or.inl (normalize_list_sublist _)

lemma findOpenSplit_all_space : ∀ {cs : List Char},
    (∀ c ∈ cs, isPySpace c = true) → findOpenSplit cs = Option.none
  | [], _ => rfl
  | c :: t, h => by
    rw [findOpenSplit, if_neg ?_]
    · exact findOpenSplit_all_space (fun x hx => h x (List.mem_cons_of_mem _ hx))
    · intro hsf
      unfold startsFence at hsf
      have h3 := of_decide_eq_true hsf
      rw [List.take_succ_cons] at h3
      have hc := h c (List.mem_cons_self _ _)
      obtain ⟨rfl, _⟩ := List.cons.injEq .. ▸ h3
      simp [isPySpace] at hc

lemma scanFences_all_space {fuel : Nat} {cs : List Char}
    (h : ∀ c ∈ cs, isPySpace c = true) : scanFences fuel cs = [] := by
  cases fuel with
  | zero => rfl
  | succ f => simp only [scanFences, findOpenSplit_all_space h]

lemma trim_all_space {cs : List Char}
    (h : ∀ c ∈ cs, isPySpace c = true) : trim cs = [] := by
  unfold trim
  rw [List.dropWhile_eq_nil_iff.mpr h]
  rfl

lemma iter_all_space : ∀ {cs : List Char},
    (∀ c ∈ cs, isPySpace c = true) → iter_json_substrings cs = []
  | [], _ => rfl
  | c :: t, h => by
    rw [iter_json_substrings, if_neg ?_]
    · exact iter_all_space (fun x hx => h x (List.mem_cons_of_mem _ hx))
    · intro hq
      have hc := h c (List.mem_cons_self _ _)
      rw [hq] at hc
      simp [isPySpace] at hc

lemma extractCands_all_space {cs : List Char}
    (h : ∀ c ∈ cs, isPySpace c = true) : extractCands cs = [[]] := by
  unfold extractCands fenceCands
  rw [scanFences_all_space h]
  rw [trim_all_space h]
  rfl

/-- **C1.** `extract_json_payload` is total — its two components are present
or absent together, it raises nothing — and on every empty or
whitespace-only input it returns `(absent, absent)`. -/
theorem claim_C1_extract_total (text : String) :
    ((extract_json_payload text).1 = Option.none ↔
      (extract_json_payload text).2 = Option.none) ∧
    ((∀ c ∈ text.data, isPySpace c = true) →
      extract_json_payload text = (Option.none, Option.none)) := by
  constructor
  · unfold extract_json_payload
    split
    · simp
    · split
      · simp
      · split
        · simp
        · simp
  · intro h
    by_cases ht : text = ""
    · subst ht; rfl
    · unfold extract_json_payload
      rw [if_neg ht, extractCands_all_space h, iter_all_space h]
      rfl

/-- **C3.** When the text has no fenced block and its stripped whole text
does not load as a JSON object, the extractor returns the first
brace-balanced candidate (starting at each `{` in order of increasing index,
ending where the depth first returns to zero) that loads as an object,
together with that candidate text. -/
theorem claim_C3_brace_scan (text : String) (d : List (String × PyVal)) (c : List Char)
    (hfence : scanFences (text.data.length + 1) text.data = [])
    (hwhole : try_load_json (trim text.data) = Option.none)
    (hfound : firstParse (iter_json_substrings text.data) = some (d, c)) :
    extract_json_payload text = (some d, some ⟨c⟩) := by
  have ht : text ≠ "" := by
    intro h; subst h
    simp [iter_json_substrings, firstParse] at hfound
  have hcands : extractCands text.data = [trim text.data] := by
    unfold extractCands fenceCands
    rw [hfence]
    rfl
  have h12 : firstParse (extractCands text.data) = Option.none := by
    rw [hcands]
    unfold firstParse
    rw [List.findSome?_cons, hwhole]
    rfl
  unfold extract_json_payload
  rw [if_neg ht, h12, hfound]

lemma firstParse_fenceCands (fences : List FenceMatch) :
    firstParse (fences.filterMap (fun f =>
      if (trim f.inner).isEmpty then Option.none else some (trim f.inner))) =
    fences.findSome? (fun f =>
      (try_load_json (trim f.inner)).map (fun d => (d, trim f.inner))) := by
  induction fences with
  | nil => rfl
  | cons f t ih =>
    rw [List.filterMap_cons, List.findSome?_cons]
    by_cases he : (trim f.inner).isEmpty = true
    · have hnil : trim f.inner = [] := by
        cases hc : trim f.inner
        · rfl
        · rw [hc] at he; simp at he
      rw [if_pos he, hnil]
      rw [show try_load_json [] = Option.none from rfl]
      exact ih
    · rw [if_neg he]
      rw [firstParse, List.findSome?_cons]
      cases htl : try_load_json (trim f.inner) with
      | some d => rfl
      | none => exact ih

/-- **C4 (amended).** When some fenced region's stripped inner text loads
as a JSON object, the extractor returns the object of the first such region
together with that stripped inner text as `matchedSource`. -/
theorem claim_C4_fenced_block (text : String) (d : List (String × PyVal)) (c : List Char)
    (h : firstGoodRegion text = some (d, c)) :
    extract_json_payload text = (some d, some ⟨c⟩) := by
  have ht : text ≠ "" := by
    intro h0; subst h0
    simp [firstGoodRegion, scanFences, findOpenSplit] at h
  have hfp : firstParse (fenceCands text.data) = some (d, c) := by
    unfold fenceCands
    rw [firstParse_fenceCands]
    exact h
  have hne : (fenceCands text.data).isEmpty = false := by
    cases hc : fenceCands text.data with
    | nil => rw [hc] at hfp; simp [firstParse] at hfp
    | cons a l => rfl
  have hcands : extractCands text.data = fenceCands text.data := by
    unfold extractCands
    rw [hne]
    rfl
  unfold extract_json_payload
  rw [if_neg ht, hcands, hfp]

/-- **C4, counterexample.** On this input the single fenced region's inner
text (group 1, `"{\"a\": 1}\n"`) itself strictly parses to a JSON object, so
the claim applies; yet the returned `matchedSource` is the stripped inner
text `"{\"a\": 1}"`, which is neither the exact matched substring (group 0,
fences included) nor the matched group: the claim's "exact matched
substring" component is false on the code. -/
theorem claim_C4_counterexample :
    (scanFences ("```json\n\x7b\"a\": 1\x7d\n```".data.length + 1)
        "```json\n\x7b\"a\": 1\x7d\n```".data).map
        (fun f => ((⟨f.full⟩ : String), (⟨f.inner⟩ : String))) =
      [("```json\n\x7b\"a\": 1\x7d\n```", "\x7b\"a\": 1\x7d\n")] ∧
    pyJsonLoads "\x7b\"a\": 1\x7d\n".data = some (PyVal.dict [("a", PyVal.int 1)]) ∧
    extract_json_payload "```json\n\x7b\"a\": 1\x7d\n```" =
      (some [("a", PyVal.int 1)], some "\x7b\"a\": 1\x7d") ∧
    ("\x7b\"a\": 1\x7d" : String) ≠ "```json\n\x7b\"a\": 1\x7d\n```" ∧
    ("\x7b\"a\": 1\x7d" : String) ≠ "\x7b\"a\": 1\x7d\n" :=
  ⟨rfl, rfl, rfl, by decide, by decide⟩

/-- Witness for C1 at the whitespace-only input `" \t\n"`. -/
theorem claim_C1_witness :
    extract_json_payload " \t\n" = (Option.none, Option.none) :=
  (claim_C1_extract_total " \t\n").2 (by decide)

/-- Witness for C3 at the spec's example `"result: {\"a\":1} done"`. -/
theorem claim_C3_witness :
    extract_json_payload "result: \x7b\"a\":1\x7d done" =
      (some [("a", PyVal.int 1)], some "\x7b\"a\":1\x7d") :=
  claim_C3_brace_scan "result: \x7b\"a\":1\x7d done" [("a", PyVal.int 1)]
    "\x7b\"a\":1\x7d".data rfl rfl rfl

/-- Witness for the amended C4 at a fenced block surrounded by prose. -/
theorem claim_C4_witness :
    firstGoodRegion "noise ```json \x7b\"a\": 1\x7d ``` tail" =
      some ([("a", PyVal.int 1)], "\x7b\"a\": 1\x7d".data) ∧
    extract_json_payload "noise ```json \x7b\"a\": 1\x7d ``` tail" =
      (some [("a", PyVal.int 1)], some "\x7b\"a\": 1\x7d") :=
  ⟨rfl, claim_C4_fenced_block "noise ```json \x7b\"a\": 1\x7d ``` tail"
    [("a", PyVal.int 1)] "\x7b\"a\": 1\x7d".data rfl⟩

lemma findRecent_append_fail {l1 l2 : List Step}
    (h : ∀ x ∈ l1, (extract_json_payload (stepResp x)).1 = Option.none) :
    findRecent (l1 ++ l2) = findRecent l2 := by
  induction l1 with
  | nil => rfl
  | cons s t ih =>
    rw [List.cons_append, findRecent]
    simp only [h s (List.mem_cons_self _ _)]
    exact ih (fun x hx => h x (List.mem_cons_of_mem _ hx))

lemma findRecent_cons_found {s : Step} {rest : List Step} {p : List (String × PyVal)}
    (h : (extract_json_payload (stepResp s)).1 = some p) :
    findRecent (s :: rest) = some (p, stepResp s) := by
  rw [findRecent]
  simp only [h]

lemma findRecent_all_fail {l : List Step}
    (h : ∀ x ∈ l, (extract_json_payload (stepResp x)).1 = Option.none) :
    findRecent l = Option.none := by
  have h0 : findRecent (l ++ []) = findRecent [] := findRecent_append_fail h
  rw [List.append_nil] at h0
  exact h0

/-- **C2.** The converter scans the steps from last to first and uses the
first (most recent) one whose response yields a payload — in particular a
payload only in the oldest step is still found; when no step yields one,
the payload is the empty mapping and the recorded raw text is the last
step's response (`""` for an empty transcript), making the three found
fields empty in the output record. -/
theorem claim_C2_converter_scan :
    (∀ (pre : List Step) (s : Step) (post : List Step) (p : List (String × PyVal)),
      (∀ x ∈ post, (extract_json_payload (stepResp x)).1 = Option.none) →
      (extract_json_payload (stepResp s)).1 = some p →
      convert (pre ++ s :: post) = buildOutput p (some (stepResp s))) ∧
    (∀ steps : List Step,
      (∀ x ∈ steps, (extract_json_payload (stepResp x)).1 = Option.none) →
      convert steps = buildOutput [] (fallbackRaw steps)) ∧
    (∀ raw : Option String,
      (buildOutput [] raw).found_files = [] ∧
      (buildOutput [] raw).found_modules = [] ∧
      (buildOutput [] raw).found_entities = [] ∧
      (buildOutput [] raw).raw_output_loc =
        (match raw with
          | some s => if s = "" then [] else [s]
          | Option.none => [])) ∧
    fallbackRaw [] = some "" ∧
    (∀ (steps : List Step) (s : Step), steps.getLast? = some s →
      fallbackRaw steps = s.response) := by
  refine ⟨?_, ?_, fun raw => ⟨rfl, rfl, rfl, rfl⟩, rfl, ?_⟩
  · intro pre s post p hpost hs
    unfold convert
    rw [List.reverse_append, List.reverse_cons, List.append_assoc]
    rw [findRecent_append_fail (fun x hx => hpost x (List.mem_reverse.mp hx))]
    rw [List.singleton_append, findRecent_cons_found hs]
  · intro steps hall
    unfold convert
    rw [findRecent_all_fail (fun x hx => hall x (List.mem_reverse.mp hx))]
  · intro steps s h
    unfold fallbackRaw
    rw [h]

/-- Witness for C2 at the spec's scenario: steps `[valid JSON, prose,
prose]` yield the payload of step 0, not an empty result. -/
theorem claim_C2_witness :
    convert [⟨some "\x7b\"found_files\": [\"a.py\"]\x7d"⟩, ⟨some "prose one"⟩,
        ⟨some "prose two"⟩] =
      buildOutput [("found_files", PyVal.list [PyVal.str "a.py"])]
        (some "\x7b\"found_files\": [\"a.py\"]\x7d") :=
  claim_C2_converter_scan.1 [] ⟨some "\x7b\"found_files\": [\"a.py\"]\x7d"⟩
    [⟨some "prose one"⟩, ⟨some "prose two"⟩] [("found_files", PyVal.list [PyVal.str "a.py"])]
    (by intro x hx; fin_cases hx <;> rfl) rfl
lemma missingList_cons (args : BuildArgs) (pe : String → Bool) (r : BenchRecord)
    (rs : List BenchRecord) :
    missingList args pe (r :: rs) =
      missingList args pe [r] ++ missingList args pe rs := by
  unfold missingList
  rw [List.filterMap_cons, List.filterMap_cons, List.filterMap_nil]
  split <;> rfl

lemma stepRecord_missing (args : BuildArgs) (pe : String → Bool) (s : BState)
    (r : BenchRecord) (hsm : args.skipMissing = false) :
    (stepRecord args pe s r).1.missing = s.missing ++ missingList args pe [r] := by
  by_cases h1 : optTruthy r.instance_id = true <;>
    by_cases h2 : passesFilter args ((r.instance_id).getD "") = true <;>
      by_cases h3 : optTruthy r.repo = true <;>
        by_cases h4 : pe (build_repo_path args.repoRoot ((r.repo).getD "")) = true <;>
          simp [stepRecord, missingList, h1, h2, h3, h4, hsm]

lemma stepRecord_no_break (args : BuildArgs) (pe : String → Bool) (s : BState)
    (r : BenchRecord) (hlim : args.limit = Option.none) :
    (stepRecord args pe s r).2 = false := by
  by_cases h1 : optTruthy r.instance_id = true <;>
    by_cases h2 : passesFilter args ((r.instance_id).getD "") = true <;>
      by_cases h3 : optTruthy r.repo = true <;>
        by_cases h4 : pe (build_repo_path args.repoRoot ((r.repo).getD "")) = true <;>
          by_cases h5 : args.skipMissing = true <;>
            simp [stepRecord, limitReached, hlim, h1, h2, h3, h4, h5]

lemma stepRecord_missing_skip (args : BuildArgs) (pe : String → Bool) (s : BState)
    (r : BenchRecord) (hsm : args.skipMissing = true) :
    (stepRecord args pe s r).1.missing = s.missing := by
  by_cases h1 : optTruthy r.instance_id = true <;>
    by_cases h2 : passesFilter args ((r.instance_id).getD "") = true <;>
      by_cases h3 : optTruthy r.repo = true <;>
        by_cases h4 : pe (build_repo_path args.repoRoot ((r.repo).getD "")) = true <;>
          simp [stepRecord, h1, h2, h3, h4, hsm]

lemma runLoop_missing (args : BuildArgs) (pe : String → Bool)
    (hsm : args.skipMissing = false) (hlim : args.limit = Option.none) :
    ∀ (records : List BenchRecord) (s : BState),
    (runLoop args pe s records).missing = s.missing ++ missingList args pe records
  | [], s => by simp [runLoop, missingList]
  | r :: rs, s => by
    rw [runLoop]
    simp only [stepRecord_no_break args pe s r hlim, Bool.false_eq_true, if_false]
    rw [runLoop_missing args pe hsm hlim rs _]
    rw [stepRecord_missing args pe s r hsm]
    rw [List.append_assoc]
    rw [← missingList_cons]

lemma runLoop_missing_skip (args : BuildArgs) (pe : String → Bool)
    (hsm : args.skipMissing = true) :
    ∀ (records : List BenchRecord) (s : BState),
    (runLoop args pe s records).missing = s.missing
  | [], s => rfl
  | r :: rs, s => by
    rw [runLoop]
    split
    · exact stepRecord_missing_skip args pe s r hsm
    · rw [runLoop_missing_skip args pe hsm rs _]
      exact stepRecord_missing_skip args pe s r hsm

lemma stepRecord_not_survives (args : BuildArgs) (pe : String → Bool) (s : BState)
    (r : BenchRecord) (h : survives args pe r = false) :
    (stepRecord args pe s r).1.out = s.out ∧
    (stepRecord args pe s r).1.count = s.count ∧
    (stepRecord args pe s r).2 = false := by
  by_cases h1 : optTruthy r.instance_id = true <;>
    by_cases h2 : passesFilter args ((r.instance_id).getD "") = true <;>
      by_cases h3 : optTruthy r.repo = true <;>
        by_cases h4 : pe (build_repo_path args.repoRoot ((r.repo).getD "")) = true <;>
          by_cases h5 : args.skipMissing = true <;>
            simp_all [stepRecord, survives]

lemma stepRecord_survives (args : BuildArgs) (pe : String → Bool) (s : BState)
    (r : BenchRecord) (h : survives args pe r = true) :
    stepRecord args pe s r =
      ({ s with out := s.out ++ [mkInstance args r], count := s.count + 1 },
        limitReached args (s.count + 1)) := by
  unfold survives at h
  simp only [Bool.and_eq_true] at h
  obtain ⟨⟨⟨h1, h2⟩, h3⟩, h4⟩ := h
  simp [stepRecord, h1, h2, h3, h4]

lemma runLoop_out (args : BuildArgs) (pe : String → Bool) :
    ∀ (records : List BenchRecord) (s : BState),
    (runLoop args pe s records).out = s.out ++ survivorsAux args pe s.count records
  | [], s => by simp [runLoop, survivorsAux]
  | r :: rs, s => by
    rw [runLoop, survivorsAux]
    by_cases hs : survives args pe r = true
    · rw [stepRecord_survives args pe s r hs, if_pos hs]
      by_cases hl : limitReached args (s.count + 1) = true
      · simp [hl]
      · simp only [hl, Bool.false_eq_true, if_false, ite_false]
        rw [runLoop_out args pe rs _]
        simp
    · have hns := stepRecord_not_survives args pe s r (by
        cases hsv : survives args pe r
        · rfl
        · exact absurd hsv hs)
      rw [if_neg hs]
      rw [show (stepRecord args pe s r).2 = false from hns.2.2]
      simp only [Bool.false_eq_true, if_false]
      rw [runLoop_out args pe rs _, hns.1, hns.2.1]

lemma finishRun_output (args : BuildArgs) (s : BState) :
    (finishRun args s).output = s.out := by
  unfold finishRun
  split
  · rfl
  · split <;> rfl

lemma mainRun_out_spec (args : BuildArgs) (pe : String → Bool)
    (records : List BenchRecord) :
    (mainRun args pe records).output = survivorsLimited args pe records := by
  unfold mainRun
  rw [finishRun_output, runLoop_out args pe records _]
  rfl

/-- **C9.** The lines written by a run are exactly the task instances of the
surviving records (limit cutoff included), independently of the missing-repo
bookkeeping and the exit code — in particular a run that exits with code `3`
has still written one line per surviving record whose repository path
existed; the failure withholds, truncates and rolls back nothing. -/
theorem claim_C9_output_not_withheld (args : BuildArgs) (pe : String → Bool)
    (records : List BenchRecord) :
    (mainRun args pe records).output = survivorsLimited args pe records :=
  mainRun_out_spec args pe records

/-- **C7 (amended).** Without skip-missing and without an emission limit, a
run with at least one missing repository scans all records (the missing list
is the whole scan's), exits with code `3`, and reports at most the first ten
missing slugs.  With skip-missing, records with missing repositories are
omitted from the output and the run exits `0`.  (The original claim omitted
the no-limit proviso: an emission limit can stop the scan before a missing
record is reached, making the run exit `0` — see the counterexample.) -/
theorem claim_C7_missing_repos (args : BuildArgs) (pe : String → Bool)
    (records : List BenchRecord) :
    (args.skipMissing = false → args.limit = Option.none →
      missingList args pe records ≠ [] →
      (mainRun args pe records).exitCode = 3 ∧
      (mainRun args pe records).reportedMissing =
        (missingList args pe records).take 10) ∧
    (args.skipMissing = true →
      (mainRun args pe records).exitCode = 0 ∧
      (mainRun args pe records).output = survivorsLimited args pe records) := by
  constructor
  · intro hsm hlim hne
    have hm : (runLoop args pe ⟨[], 0, []⟩ records).missing =
        missingList args pe records := by
      simpa using runLoop_missing args pe hsm hlim records ⟨[], 0, []⟩
    unfold mainRun finishRun
    rw [hm, if_neg hne, if_neg (by simp [hsm])]
    exact ⟨rfl, rfl⟩
  · intro hsm
    refine ⟨?_, mainRun_out_spec args pe records⟩
    have hm : (runLoop args pe ⟨[], 0, []⟩ records).missing = [] :=
      runLoop_missing_skip args pe hsm records ⟨[], 0, []⟩
    unfold mainRun finishRun
    rw [hm, if_pos rfl]

/-- **C7, counterexample.** With an emission limit of `1`, a run whose second
record's repository path is missing (skip-missing not configured, the record
truthy and passing the absent filter) exits with code `0`, not `3`: the
limit stops the scan before the missing record is reached, so the claim as
stated fails on the code. -/
theorem claim_C7_counterexample :
    (mainRun ⟨"", "root", Option.none, some 1, false⟩
        (fun p => p == "root/org_repo")
        [⟨some "x1", some "org/repo", some "abc", some "ps"⟩,
          ⟨some "x2", some "bad/repo", Option.none, Option.none⟩]).exitCode = 0 ∧
    (fun p => p == "root/org_repo") (build_repo_path "root" "bad/repo") = false ∧
    optTruthy (some "x2") = true ∧
    optTruthy (some "bad/repo") = true ∧
    passesFilter ⟨"", "root", Option.none, some 1, false⟩ "x2" = true :=
  ⟨rfl, rfl, rfl, rfl, rfl⟩

/-- Witness for the amended C7: a one-record run with a missing repository
exits `3` without skip-missing and `0` with it. -/
theorem claim_C7_witness :
    (mainRun ⟨"", "root", Option.none, Option.none, false⟩ (fun _ => false)
      [⟨some "x1", some "org/repo", Option.none, Option.none⟩]).exitCode = 3 ∧
    (mainRun ⟨"", "root", Option.none, Option.none, true⟩ (fun _ => false)
      [⟨some "x1", some "org/repo", Option.none, Option.none⟩]).exitCode = 0 :=
  ⟨((claim_C7_missing_repos ⟨"", "root", Option.none, Option.none, false⟩ (fun _ => false)
      [⟨some "x1", some "org/repo", Option.none, Option.none⟩]).1 rfl rfl
      (by decide)).1,
   ((claim_C7_missing_repos ⟨"", "root", Option.none, Option.none, true⟩ (fun _ => false)
      [⟨some "x1", some "org/repo", Option.none, Option.none⟩]).2 rfl).1⟩

lemma stepRecord_norepo (args : BuildArgs) (pe : String → Bool) (s : BState)
    (r : BenchRecord) (h1 : optTruthy r.instance_id = true)
    (h2 : passesFilter args ((r.instance_id).getD "") = true)
    (h3 : r.repo = Option.none ∨ r.repo = some "") :
    stepRecord args pe s r = (s, false) := by
  have h3' : optTruthy r.repo = false := by
    rcases h3 with h | h <;> rw [h] <;> rfl
  simp [stepRecord, h1, h2, h3']

lemma runLoop_skip_record (args : BuildArgs) (pe : String → Bool) (r : BenchRecord)
    (hstep : ∀ s : BState, stepRecord args pe s r = (s, false)) :
    ∀ (pre post : List BenchRecord) (s : BState),
    runLoop args pe s (pre ++ r :: post) = runLoop args pe s (pre ++ post)
  | [], post, s => by
    rw [List.nil_append, List.nil_append, runLoop]
    simp only [hstep s, Bool.false_eq_true, if_false]
  | p :: ps, post, s => by
    rw [List.cons_append, List.cons_append, runLoop, runLoop]
    split
    · rfl
    · exact runLoop_skip_record args pe r hstep ps post _

/-- **C10.** A record whose `repo` field is absent or empty is silently
skipped even when its `instance_id` is truthy and passes the filter: the
whole run result — output lines, reported missing slugs, and exit code — is
as if the record were not in the dataset at all. -/
theorem claim_C10_empty_repo_skipped (args : BuildArgs) (pe : String → Bool)
    (pre post : List BenchRecord) (r : BenchRecord)
    (h1 : optTruthy r.instance_id = true)
    (h2 : passesFilter args ((r.instance_id).getD "") = true)
    (h3 : r.repo = Option.none ∨ r.repo = some "") :
    mainRun args pe (pre ++ r :: post) = mainRun args pe (pre ++ post) := by
  unfold mainRun
  rw [runLoop_skip_record args pe r
    (fun s => stepRecord_norepo args pe s r h1 h2 h3) pre post]

/-- Witness for C10: inserting a record with an empty repo changes nothing. -/
theorem claim_C10_witness :
    mainRun ⟨"", "root", Option.none, Option.none, false⟩ (fun _ => true)
        [⟨some "x1", some "", Option.none, Option.none⟩,
          ⟨some "x2", some "org/repo", Option.none, Option.none⟩] =
      mainRun ⟨"", "root", Option.none, Option.none, false⟩ (fun _ => true)
        [⟨some "x2", some "org/repo", Option.none, Option.none⟩] :=
  claim_C10_empty_repo_skipped ⟨"", "root", Option.none, Option.none, false⟩
    (fun _ => true) [] [⟨some "x2", some "org/repo", Option.none, Option.none⟩]
    ⟨some "x1", some "", Option.none, Option.none⟩ rfl rfl (Or.inr rfl)

end LocBench
